import Mathlib

/-!
Verification development for the variant-composition and value-resolution
core of the tailwindcss repository (src/src/util/pluginUtils.js and its
callers in src/unnamed/part_000).

JavaScript strings are embedded as Lean `String`s manipulated through
`List Char`; the JS string primitives (`indexOf`, `slice`, `replace`,
`split`, `lastIndexOf`, `startsWith`, `endsWith`, `Array.join`) are
modelled below with their ECMAScript semantics at the call sites used by
the source (ASCII inputs, char-count lengths).
-/

set_option maxHeartbeats 1000000
set_option maxRecDepth 8192

namespace Tailwind

/-- JS `String.prototype.indexOf(pat, start)` over char lists: the least
position `j ≥ min start len` where `pat` occurs, `none` when absent. -/
def jsFindFrom (s pat : List Char) (start : Nat) : Option Nat :=
  (List.range (s.length + 1)).find?
    (fun j => decide (min start s.length ≤ j) && pat.isPrefixOf (s.drop j))

/-- JS `s.indexOf(pat, start)` on strings (`none` encodes JS `-1`). -/
def jsIndexOfFrom (s pat : String) (start : Nat) : Option Nat :=
  jsFindFrom s.toList pat.toList start

/-- Resolve one JS `slice` endpoint: negative indices count from the end
and everything is clamped to `[0, len]`. -/
def jsSliceIdx (len : Nat) (i : Int) : Nat :=
  if i < 0 then ((len : Int) + i).toNat else min i.toNat len

/-- JS `s.slice(a, b)` with full negative-index and clamping semantics. -/
def jsSlice (s : String) (a b : Int) : String :=
  let ia := jsSliceIdx s.toList.length a
  let ib := jsSliceIdx s.toList.length b
  String.mk ((s.toList.drop ia).take (ib - ia))

/-- JS `s.replace(sub, repl)` for a plain-string pattern: replaces the
first occurrence only, returns `s` unchanged when `sub` does not occur. -/
def jsReplaceFirst (s sub repl : String) : String :=
  match jsIndexOfFrom s sub 0 with
  | none => s
  | some i =>
      String.mk (s.toList.take i) ++ repl ++ String.mk (s.toList.drop (i + sub.toList.length))

/-- Accumulator loop for JS `split` on a one-char separator. -/
def jsSplitCharAux (sep : Char) : List Char → List Char → List (List Char)
  | [], acc => [acc.reverse]
  | c :: rest, acc =>
      if c = sep then acc.reverse :: jsSplitCharAux sep rest []
      else jsSplitCharAux sep rest (c :: acc)

/-- JS `s.split(sep)` for a single-character separator; `"".split(sep)`
yields `[""]` as in ECMAScript. -/
def jsSplitChar (s : String) (sep : Char) : List String :=
  (jsSplitCharAux sep s.toList []).map String.mk

/-- JS `s.lastIndexOf(c)` for a single character. -/
def jsLastIndexOfChar (s : String) (c : Char) : Option Nat :=
  ((List.range s.toList.length).filter (fun j => s.toList.get? j == some c)).getLast?

/-- JS `s.startsWith(pre)`. -/
def jsStartsWith (s pre : String) : Bool := pre.toList.isPrefixOf s.toList

/-- JS `s.endsWith(suf)`. -/
def jsEndsWith (s suf : String) : Bool := suf.toList.isSuffixOf s.toList

/-- JS `Array.prototype.join(sep)` on a list of strings. -/
def jsJoin (sep : String) : List String → String
  | [] => ""
  | [x] => x
  | x :: y :: ys => x ++ sep ++ jsJoin sep (y :: ys)

/-- Embedding of `applyPseudoToMarker(selector, marker, state, join)` from
src/src/util/pluginUtils.js: find the first occurrence of `marker`
followed by `:`; when present, slice out the existing marker-with-states
token, prepend the new state to the parsed colon-separated state list,
remove the token from the selector, and hand the rebuilt token plus the
remaining text to `join`; when absent, hand `marker:state` plus the
untouched selector to `join`. -/
def applyPseudoToMarker (selector marker state : String)
    (join : String → String → String) : String :=
  match jsIndexOfFrom selector (marker ++ ":") 0 with
  | none => join (jsJoin ":" (marker :: [state])) selector
  | some markerIdx =>
      let spaceEnd : Int :=
        match jsIndexOfFrom selector " " markerIdx with
        | none => -1
        | some j => (j : Int)
      let existingMarker := jsSlice selector (markerIdx : Int) spaceEnd
      let states :=
        state ::
          jsSplitChar
            (jsSlice selector ((markerIdx : Int) + (marker.toList.length : Int) + 1)
              (existingMarker.toList.length : Int)) ':'
      let selector2 := jsReplaceFirst selector existingMarker ""
      join (jsJoin ":" (marker :: states)) selector2

/-- Accumulator loop of `splitByNotEscapedCommas`: a comma whose previous
character is not a backslash closes the current chunk. -/
def splitCommasAux : List Char → Option Char → List Char → List (List Char)
  | [], _, acc => [acc.reverse]
  | c :: rest, prev, acc =>
      if c = ',' ∧ prev ≠ some '\\' then acc.reverse :: splitCommasAux rest (some c) []
      else splitCommasAux rest (some c) (c :: acc)

/-- Embedding of `splitByNotEscapedCommas(str)` from
src/src/util/pluginUtils.js: split on commas not preceded by a backslash;
always returns at least one (possibly empty) chunk. -/
def splitByNotEscapedCommas (str : String) : List String :=
  (splitCommasAux str.toList none []).map String.mk

/-- Char-level rejoining of chunks with a comma between them. -/
def joinCharChunks : List (List Char) → List Char
  | [] => []
  | [x] => x
  | x :: y :: ys => x ++ ',' :: joinCharChunks (y :: ys)

/-- Simple-selector node of the selector AST, as exposed by the
postcss-selector-parser adapter the source consumes (spec section 3): a
class node, a pseudo node, or any other simple selector (combinator,
attribute, tag, ...) carried opaquely. -/
inductive SimpleNode where
  | cls (value : String)
  | pseudo (value : String)
  | other (value : String)
deriving DecidableEq

/-- Whether an AST node is a class node. -/
def isClassNode : SimpleNode → Bool
  | SimpleNode.cls _ => true
  | _ => false

/-- Number of class nodes in a compound selector. -/
def countClasses : List SimpleNode → Nat
  | [] => 0
  | SimpleNode.cls _ :: rest => countClasses rest + 1
  | _ :: rest => countClasses rest

/-- Total number of class nodes in a selector (list of compounds). -/
def countClassesSel (sel : List (List SimpleNode)) : Nat :=
  (sel.map countClasses).sum

/-- Values of the class nodes of a compound selector, in order. -/
def classValues : List SimpleNode → List String
  | [] => []
  | SimpleNode.cls v :: rest => v :: classValues rest
  | _ :: rest => classValues rest

/-- One pass of `updateAllClasses` over a compound selector: every class
node's value is replaced by the callback's result, and when the callback
used its `withPseudo` capability (second component `some p`) a pseudo
node is inserted immediately after the class, exactly as
`sel.parent.insertAfter(sel, selectorParser.pseudo(...))` does in
src/src/util/pluginUtils.js. The callback is modelled as returning the
new class name together with the optional pseudo it asked to insert. -/
def updateClassesInCompound (rw : String → String × Option String) :
    List SimpleNode → List SimpleNode
  | [] => []
  | SimpleNode.cls v :: rest =>
      match rw v with
      | (v2, some p) =>
          SimpleNode.cls v2 :: SimpleNode.pseudo p :: updateClassesInCompound rw rest
      | (v2, none) => SimpleNode.cls v2 :: updateClassesInCompound rw rest
  | n :: rest => n :: updateClassesInCompound rw rest

/-- Embedding of `updateAllClasses(selectors, updateClass)` from
src/src/util/pluginUtils.js at the level of the parsed selector AST: the
parser walks every class node of every compound selector and applies the
callback (the comma re-escaping of `raws` and the final re-serialization
do not change the node structure). -/
def updateAllClasses (rw : String → String × Option String)
    (sel : List (List SimpleNode)) : List (List SimpleNode) :=
  sel.map (updateClassesInCompound rw)

/-- One pass of `updateLastClasses` over a compound selector: only the
last class-type node is handed to the callback
(`sel.filter(({ type }) => type === 'class').pop()` in the source); a
compound with no class node is returned unchanged. -/
def updateLastInCompound (rw : String → String × Option String) :
    List SimpleNode → List SimpleNode
  | [] => []
  | n :: rest =>
      if rest.any isClassNode then n :: updateLastInCompound rw rest
      else
        match n with
        | SimpleNode.cls v =>
            match rw v with
            | (v2, some p) => SimpleNode.cls v2 :: SimpleNode.pseudo p :: rest
            | (v2, none) => SimpleNode.cls v2 :: rest
        | _ => n :: updateLastInCompound rw rest

/-- Embedding of `updateLastClasses(selectors, updateClass)` from
src/src/util/pluginUtils.js at the level of the parsed selector AST. -/
def updateLastClasses (rw : String → String × Option String)
    (sel : List (List SimpleNode)) : List (List SimpleNode) :=
  sel.map (updateLastInCompound rw)

/-- Rewrite only the last element of a list. -/
def mapLast (f : String → String) : List String → List String
  | [] => []
  | [x] => [f x]
  | x :: y :: ys => x :: mapLast f (y :: ys)

/-- A style rule of the postcss tree: a selector string plus its
declarations (property/value pairs). -/
structure CssRule where
  selector : String
  decls : List (String × String)
deriving DecidableEq

/-- A node of the postcss tree consumed by `transformAllSelectors`: a
style rule, or an at-rule containing child nodes (as produced by
`postcss.atRule` and traversed transitively by `walkRules`). -/
inductive CssNode where
  | rule (r : CssRule)
  | atRule (name : String) (params : String) (children : List CssNode)

/-- Direct children of a tree node (a rule has none). -/
def childrenOf : CssNode → List CssNode
  | CssNode.rule _ => []
  | CssNode.atRule _ _ cs => cs

/-- The selector rewrite applied by `transformAllSelectors` to one
non-keyframe rule: split the selector on non-escaped commas, transform
each piece independently, rejoin with commas, then run the `withRule`
hook on the rule. -/
def applyRuleTransform (transformSelector : String → String)
    (withRule : CssRule → CssRule) (r : CssRule) : CssRule :=
  withRule { r with
    selector := jsJoin "," ((splitByNotEscapedCommas r.selector).map transformSelector) }

mutual

/-- The `container.walkRules` pass of `transformAllSelectors` from
src/src/util/pluginUtils.js on one node: a rule recognized by
`isKeyframeRule` (modelled as the predicate `kf`; src/util/isKeyframeRule
is consumed opaquely by the source) is returned as-is; any other rule has
its selector split on non-escaped commas, each piece transformed, the
pieces rejoined with commas, and the optional `withRule` hook run on the
resulting rule; at-rules are traversed transitively. -/
def transformNode (transformSelector : String → String) (kf : String → Bool)
    (withRule : CssRule → CssRule) : CssNode → CssNode
  | CssNode.rule r =>
      if kf r.selector then CssNode.rule r
      else CssNode.rule (applyRuleTransform transformSelector withRule r)
  | CssNode.atRule n p cs =>
      CssNode.atRule n p (transformNodes transformSelector kf withRule cs)

/-- `transformNode` mapped over a list of sibling nodes. -/
def transformNodes (transformSelector : String → String) (kf : String → Bool)
    (withRule : CssRule → CssRule) : List CssNode → List CssNode
  | [] => []
  | c :: cs =>
      transformNode transformSelector kf withRule c ::
        transformNodes transformSelector kf withRule cs

end

/-- Embedding of `transformAllSelectors(transformSelector, { wrap,
withRule })` from src/src/util/pluginUtils.js applied to a rule
container: walk and rewrite every rule, then, when `wrap` supplies an
at-rule (name and params, as `postcss.atRule({ name, params })` does in
the callers), remove all children from the container, append them to the
freshly created wrapper, and append the wrapper as the container's sole
child. -/
def transformAllSelectors (transformSelector : String → String) (kf : String → Bool)
    (wrap : Option (String × String)) (withRule : CssRule → CssRule)
    (container : List CssNode) : List CssNode :=
  let transformed := transformNodes transformSelector kf withRule container
  match wrap with
  | none => transformed
  | some np => [CssNode.atRule np.1 np.2 transformed]

mutual

/-- All rules inside a node, in `walkRules` (depth-first) order. -/
def rulesInNode : CssNode → List CssRule
  | CssNode.rule r => [r]
  | CssNode.atRule _ _ cs => rulesInNodes cs

/-- All rules inside a list of sibling nodes. -/
def rulesInNodes : List CssNode → List CssRule
  | [] => []
  | c :: cs => rulesInNode c ++ rulesInNodes cs

end

/-- Modelled from the spec: the value-kind validators and the `normalize`
normalizer of src/util/dataTypes.js, and the `withAlphaValue` color
composer of src/util/withAlphaVariable.js, are repository modules absent
from src/; the spec consumes them opaquely ("each supported kind owns an
independent validator+normalizer"; the composer substitutes an alpha
channel into a resolved color). They are carried as the fields of this
record, so the theorems below hold for every implementation of them.
`withAlphaValue` may fail (JS returns `undefined` on unparseable colors
when no default is given), hence its `Option` result. -/
structure Ext where
  normalize : String → String
  color : String → Bool
  url : String → Bool
  image : String → Bool
  length : String → Bool
  percentage : String → Bool
  position : String → Bool
  genericName : String → Bool
  familyName : String → Bool
  number : String → Bool
  lineWidth : String → Bool
  absoluteSize : String → Bool
  relativeSize : String → Bool
  withAlphaValue : String → String → Option String

/-- The slice of the tailwind configuration consulted by `asColor`:
`tailwindConfig.theme?.opacity?.[alpha]`, a read-only opacity scale. -/
structure TailwindConfig where
  opacity : String → Option String

/-- Embedding of `isArbitraryValue(input)` from
src/src/util/pluginUtils.js. -/
def isArbitraryValue (input : String) : Bool :=
  jsStartsWith input "[" && jsEndsWith input "]"

/-- Embedding of `asValue(modifier, lookup, { validate })` from
src/src/util/pluginUtils.js: a theme-table hit is returned verbatim;
otherwise a bracketed modifier is unwrapped, validated, and normalized
(`normalize` comes from the external dataTypes module, see `Ext`). -/
def asValue (ext : Ext) (modifier : String) (lookup : String → Option String)
    (validate : String → Bool) : Option String :=
  match lookup modifier with
  | some v => some v
  | none =>
      if isArbitraryValue modifier = false then none
      else
        let value := jsSlice modifier 1 (-1)
        if validate value = false then none
        else some (ext.normalize value)

/-- Embedding of `splitAlpha(modifier)` from src/src/util/pluginUtils.js:
split at the last `/`; no slash, or a trailing slash, yields no alpha
component (the JS one-element array). -/
def splitAlpha (modifier : String) : String × Option String :=
  match jsLastIndexOfChar modifier '/' with
  | none => (modifier, none)
  | some slashIdx =>
      if slashIdx = modifier.toList.length - 1 then (modifier, none)
      else
        (jsSlice modifier 0 (slashIdx : Int),
          some (jsSlice modifier ((slashIdx : Int) + 1) (modifier.toList.length : Int)))

/-- Embedding of `asColor(modifier, lookup, tailwindConfig)` from
src/src/util/pluginUtils.js: a direct theme hit is returned verbatim;
else, when the part before the last slash is a theme key, the alpha
suffix must be a bracketed arbitrary value or a theme opacity key, and
the color is composed via `withAlphaValue`; otherwise fall through to
`asValue` with the color validator. The inner `none` branch is
unreachable (`splitAlpha` returns no alpha only when the whole modifier
was the looked-up key, already handled; JS would fault there). -/
def asColor (ext : Ext) (modifier : String) (lookup : String → Option String)
    (cfg : TailwindConfig) : Option String :=
  match lookup modifier with
  | some v => some v
  | none =>
      let p := splitAlpha modifier
      match lookup p.1 with
      | some c =>
          match p.2 with
          | some alpha =>
              if isArbitraryValue alpha then ext.withAlphaValue c (jsSlice alpha 1 (-1))
              else
                match cfg.opacity alpha with
                | none => none
                | some o => ext.withAlphaValue c o
          | none => none
      | none => asValue ext modifier lookup ext.color

/-- Embedding of `asLookupValue(modifier, lookup)` from
src/src/util/pluginUtils.js. -/
def asLookupValue (modifier : String) (lookup : String → Option String) : Option String :=
  lookup modifier

/-- Embedding of `guess(validate)` from src/src/util/pluginUtils.js: an
`asValue` resolver with a fixed validator. -/
def guessResolver (ext : Ext) (validate : String → Bool) :
    String → (String → Option String) → TailwindConfig → Option String :=
  fun modifier lookup _ => asValue ext modifier lookup validate

/-- Embedding of the `typeMap` table from src/src/util/pluginUtils.js,
keyed by the kind name. An unknown kind resolves to nothing (unreachable
through `coerceValue`, which only consults supported kinds; JS would
fault there). -/
def typeMap (ext : Ext) (t : String) :
    String → (String → Option String) → TailwindConfig → Option String :=
  if t = "any" then fun m l _ => asValue ext m l (fun _ => true)
  else if t = "color" then fun m l c => asColor ext m l c
  else if t = "url" then guessResolver ext ext.url
  else if t = "image" then guessResolver ext ext.image
  else if t = "length" then guessResolver ext ext.length
  else if t = "percentage" then guessResolver ext ext.percentage
  else if t = "position" then guessResolver ext ext.position
  else if t = "lookup" then fun m l _ => asLookupValue m l
  else if t = "generic-name" then guessResolver ext ext.genericName
  else if t = "family-name" then guessResolver ext ext.familyName
  else if t = "number" then guessResolver ext ext.number
  else if t = "line-width" then guessResolver ext ext.lineWidth
  else if t = "absolute-size" then guessResolver ext ext.absoluteSize
  else if t = "relative-size" then guessResolver ext ext.relativeSize
  else fun _ _ _ => none

/-- Embedding of `supportedTypes = Object.keys(typeMap)` from
src/src/util/pluginUtils.js. -/
def supportedTypes : List String :=
  ["any", "color", "url", "image", "length", "percentage", "position", "lookup",
   "generic-name", "family-name", "number", "line-width", "absolute-size",
   "relative-size"]

/-- Embedding of `splitAtFirst(input, delim)` from
src/src/util/pluginUtils.js: `(none, input)` encodes the JS
`[undefined, input]` returned when the delimiter is absent. -/
def splitAtFirst (input : String) (delim : String) : Option String × String :=
  match jsIndexOfFrom input delim 0 with
  | none => (none, input)
  | some idx =>
      (some (jsSlice input 0 (idx : Int)),
        jsSlice input ((idx : Int) + 1) (input.toList.length : Int))

/-- The `for (let type of [].concat(types))` loop of `coerceValue`: try
each kind's resolver in order and return the first truthy result paired
with the kind that produced it (the empty string is falsy in JS). -/
def coerceValueLoop (ext : Ext) (types : List String) (modifier : String)
    (values : String → Option String) (cfg : TailwindConfig) :
    Option (Option String × String) :=
  match types with
  | [] => none
  | t :: ts =>
      match typeMap ext t modifier values cfg with
      | some r =>
          if r = "" then coerceValueLoop ext ts modifier values cfg
          else some (some r, t)
      | none => coerceValueLoop ext ts modifier values cfg

/-- Embedding of `coerceValue(types, modifier, values, tailwindConfig)`
from src/src/util/pluginUtils.js. The JS return value is an array:
`none` encodes the failure result `[]`; `some (v, t)` encodes a
two-element `[value, type]` result (whose value slot the explicit-type
branch fills from `asValue` without a truthiness check). In the
explicit-type branch `asValue` receives `tailwindConfig` in the options
slot, so its `validate` defaults to the always-true function. -/
def coerceValue (ext : Ext) (types : List String) (modifier : String)
    (values : String → Option String) (cfg : TailwindConfig) :
    Option (Option String × String) :=
  if isArbitraryValue modifier then
    match splitAtFirst (jsSlice modifier 1 (-1)) ":" with
    | (some explicitType, value) =>
        if supportedTypes.contains explicitType = false then none
        else if 0 < value.toList.length then
          some (asValue ext ("[" ++ value ++ "]") values (fun _ => true), explicitType)
        else coerceValueLoop ext types modifier values cfg
    | (none, _) => coerceValueLoop ext types modifier values cfg
  else coerceValueLoop ext types modifier values cfg

/-- Modelled from the spec: a concrete `Ext` instantiation for closed
evaluations — an identity normalizer, validators that accept nothing, and
an alpha composer that records the color and the alpha it was given. -/
def extDefault : Ext where
  normalize := fun v => v
  color := fun _ => false
  url := fun _ => false
  image := fun _ => false
  length := fun _ => false
  percentage := fun _ => false
  position := fun _ => false
  genericName := fun _ => false
  familyName := fun _ => false
  number := fun _ => false
  lineWidth := fun _ => false
  absoluteSize := fun _ => false
  relativeSize := fun _ => false
  withAlphaValue := fun c a => some ("rgb-with-alpha(" ++ c ++ ", " ++ a ++ ")")

/-- An empty tailwind configuration (no opacity scale). -/
def cfgEmpty : TailwindConfig where
  opacity := fun _ => none

/-- A theme table holding only the key `red-500`. -/
def tableRed : String → Option String :=
  fun m => if m = "red-500" then some "#ef4444" else none

/-- A tailwind configuration whose opacity scale holds only the key
`50`. -/
def cfgOpacity : TailwindConfig where
  opacity := fun a => if a = "50" then some "0.5" else none

/-- Container used to witness `transformAllSelectors_wrap_spec`. -/
def c6Container : List CssNode :=
  [CssNode.rule { selector := ".a", decls := [("color", "red")] },
   CssNode.atRule "supports" "(display: grid)"
     [CssNode.rule { selector := ".b", decls := [] }]]

/-- Compound selector used to witness `updateLastClasses_spec`. -/
def c5Compound : List SimpleNode :=
  [SimpleNode.other " ", SimpleNode.cls "a", SimpleNode.cls "b"]

/-- Callback used to witness `updateLastClasses_spec`. -/
def c5Callback : String → String × Option String :=
  fun v => (v ++ "2", some ":hover")

/-- Chunk lists produced by the comma splitter are never empty. -/
theorem splitCommasAux_ne_nil (l : List Char) (prev : Option Char) (acc : List Char) :
    splitCommasAux l prev acc ≠ [] := by
  induction l generalizing prev acc with
  | nil => simp [splitCommasAux]
  | cons c rest ih =>
    simp only [splitCommasAux]
    split
    · simp
    · exact ih _ _

/-- Joining string chunks with a comma agrees with char-level rejoining. -/
theorem jsJoin_map_mk : (L : List (List Char)) →
    jsJoin "," (L.map String.mk) = String.mk (joinCharChunks L)
  | [] => rfl
  | [x] => rfl
  | x :: y :: ys => by
    show String.mk x ++ "," ++ jsJoin "," ((y :: ys).map String.mk)
        = String.mk (x ++ ',' :: joinCharChunks (y :: ys))
    rw [jsJoin_map_mk (y :: ys)]
    have h : String.mk x ++ "," ++ String.mk (joinCharChunks (y :: ys))
        = String.mk ((x ++ [',']) ++ joinCharChunks (y :: ys)) := rfl
    rw [h]
    congr 1
    simp

/-- Rejoining the splitter's chunks restores the accumulator and the
remaining input. -/
theorem splitCommasAux_join (l : List Char) (prev : Option Char) (acc : List Char) :
    joinCharChunks (splitCommasAux l prev acc) = acc.reverse ++ l := by
  induction l generalizing prev acc with
  | nil => simp [splitCommasAux, joinCharChunks]
  | cons c rest ih =>
    simp only [splitCommasAux]
    split
    · rename_i h
      obtain ⟨b, M, hbm⟩ := List.exists_cons_of_ne_nil (splitCommasAux_ne_nil rest (some c) [])
      rw [hbm]
      simp only [joinCharChunks]
      have h2 := ih (some c) []
      rw [hbm] at h2
      simp only [List.reverse_nil, List.nil_append] at h2
      rw [h2, h.1]
    · have h2 := ih (some c) (c :: acc)
      rw [h2]
      simp

/-- C1: the claim that applying states `hover` then `focus` to marker
`.group` yields the same combined marker token `.group:hover:focus ...` as
applying `focus` then `hover` is false: `applyPseudoToMarker` prepends the
new state in front of the parsed existing state list, so the two
application orders produce different selector strings (`.group:focus:hover`
versus `.group:hover:focus`). -/
theorem applyPseudoToMarker_order_counterexample :
    applyPseudoToMarker (applyPseudoToMarker ".x" ".group" "hover"
        (fun m s => m ++ " " ++ s)) ".group" "focus" (fun m s => m ++ " " ++ s)
      = ".group:focus:hover  .x" ∧
    applyPseudoToMarker (applyPseudoToMarker ".x" ".group" "hover"
        (fun m s => m ++ " " ++ s)) ".group" "focus" (fun m s => m ++ " " ++ s)
      ≠ applyPseudoToMarker (applyPseudoToMarker ".x" ".group" "focus"
        (fun m s => m ++ " " ++ s)) ".group" "hover" (fun m s => m ++ " " ++ s) :=
  ⟨by decide, by decide⟩

/-- C1 (amended): the two application orders accumulate the same set of
states on the marker, but the new state is prepended (not appended), so
`hover` then `focus` yields `.group:focus:hover  .x` while `focus` then
`hover` yields `.group:hover:focus  .x`; the colon-separated state lists
of the two combined tokens are permutations of each other. -/
theorem applyPseudoToMarker_order_amended :
    applyPseudoToMarker (applyPseudoToMarker ".x" ".group" "hover"
        (fun m s => m ++ " " ++ s)) ".group" "focus" (fun m s => m ++ " " ++ s)
      = ".group:focus:hover  .x" ∧
    applyPseudoToMarker (applyPseudoToMarker ".x" ".group" "focus"
        (fun m s => m ++ " " ++ s)) ".group" "hover" (fun m s => m ++ " " ++ s)
      = ".group:hover:focus  .x" ∧
    (jsSplitChar ".group:focus:hover" ':').Perm (jsSplitChar ".group:hover:focus" ':') :=
  ⟨by decide, by decide, by decide⟩

/-- C2: the claim that `applyPseudoToMarker` on a selector lacking the
marker returns a value observably equal to the unchanged input is false:
on the marker-less selector `.foo` it synthesizes and prepends the marker
token, yielding `.group:hover .foo`, not `.foo`. -/
theorem applyPseudoToMarker_missing_marker_counterexample :
    applyPseudoToMarker ".foo" ".group" "hover" (fun m s => m ++ " " ++ s)
      = ".group:hover .foo" ∧
    applyPseudoToMarker ".foo" ".group" "hover" (fun m s => m ++ " " ++ s) ≠ ".foo" :=
  ⟨by decide, by decide⟩

/-- C2 (amended): whenever `marker` followed by `:` does not occur in the
selector — in particular whenever the marker is absent entirely —
`applyPseudoToMarker` returns `join (marker ++ ":" ++ state) selector`,
synthesizing the marker token rather than signaling "no change"; the
variant suppression observed by callers happens earlier, when the
class-rewrite pass left the selector unchanged, not inside
`applyPseudoToMarker`. -/
theorem applyPseudoToMarker_absent_marker (selector marker state : String)
    (join : String → String → String)
    (h : jsIndexOfFrom selector (marker ++ ":") 0 = none) :
    applyPseudoToMarker selector marker state join
      = join (marker ++ ":" ++ state) selector := by
  unfold applyPseudoToMarker
  rw [h]
  simp [jsJoin]

/-- Witness for `applyPseudoToMarker_absent_marker` at concrete input. -/
theorem applyPseudoToMarker_absent_marker_witness :
    jsIndexOfFrom ".bar" ".peer:" 0 = none ∧
    applyPseudoToMarker ".bar" ".peer" "focus" (fun m s => m ++ " ~ " ++ s)
      = ".peer" ++ ":" ++ "focus" ++ " ~ " ++ ".bar" :=
  ⟨by decide,
    applyPseudoToMarker_absent_marker ".bar" ".peer" "focus"
      (fun m s => m ++ " ~ " ++ s) (by decide)⟩

/-- Rewriting one compound with `updateClassesInCompound` preserves its
class-node count: each class maps to exactly one class, and the optional
insertion adds a pseudo node only. -/
theorem countClasses_updateClassesInCompound (rw : String → String × Option String)
    (comp : List SimpleNode) :
    countClasses (updateClassesInCompound rw comp) = countClasses comp := by
  induction comp with
  | nil => rfl
  | cons n rest ih =>
    cases n with
    | cls v =>
      rcases hrw : rw v with ⟨v2, p⟩
      cases p with
      | some pp => simp [updateClassesInCompound, hrw, countClasses, ih]
      | none => simp [updateClassesInCompound, hrw, countClasses, ih]
    | pseudo v => simp [updateClassesInCompound, countClasses, ih]
    | other v => simp [updateClassesInCompound, countClasses, ih]

/-- C4: `updateAllClasses` is class-count-preserving — for every selector
and every rewrite callback the rewritten selector has exactly as many
class nodes as the input (rewriting never drops or duplicates a class
node; the `withPseudo` insertion adds only a pseudo node). -/
theorem updateAllClasses_class_count (rw : String → String × Option String)
    (sel : List (List SimpleNode)) :
    countClassesSel (updateAllClasses rw sel) = countClassesSel sel := by
  unfold updateAllClasses countClassesSel
  induction sel with
  | nil => rfl
  | cons c cs ih => simp_all [countClasses_updateClassesInCompound]

/-- A compound has a class node exactly when its class-value list is
nonempty. -/
theorem any_isClassNode_iff (l : List SimpleNode) :
    l.any isClassNode = true ↔ classValues l ≠ [] := by
  induction l with
  | nil => simp [classValues]
  | cons n rest ih =>
    cases n with
    | cls v => simp [isClassNode, classValues]
    | pseudo v => simpa [isClassNode, classValues] using ih
    | other v => simpa [isClassNode, classValues] using ih

/-- A compound without any class node is returned unchanged by
`updateLastInCompound`. -/
theorem updateLastInCompound_no_class (rw : String → String × Option String)
    (comp : List SimpleNode) (h : comp.any isClassNode = false) :
    updateLastInCompound rw comp = comp := by
  induction comp with
  | nil => rfl
  | cons n rest ih =>
    simp only [List.any_cons, Bool.or_eq_false_iff] at h
    cases n with
    | cls v => simp [isClassNode] at h
    | pseudo v => simp [updateLastInCompound, h.2, ih h.2]
    | other v => simp [updateLastInCompound, h.2, ih h.2]

/-- The class values after `updateLastInCompound`: only the last class
value is rewritten, all earlier ones are preserved verbatim. -/
theorem classValues_updateLastInCompound (rw : String → String × Option String)
    (comp : List SimpleNode) :
    classValues (updateLastInCompound rw comp)
      = mapLast (fun v => (rw v).1) (classValues comp) := by
  induction comp with
  | nil => rfl
  | cons n rest ih =>
    by_cases h : rest.any isClassNode = true
    · obtain ⟨y, ys, hys⟩ :=
        List.exists_cons_of_ne_nil ((any_isClassNode_iff rest).mp h)
      cases n with
      | cls v =>
        simp only [updateLastInCompound, h, if_true, classValues, ih, hys, mapLast]
      | pseudo v =>
        simp only [updateLastInCompound, h, if_true, classValues, ih]
      | other v =>
        simp only [updateLastInCompound, h, if_true, classValues, ih]
    · have hb : rest.any isClassNode = false := by
        cases hx : rest.any isClassNode
        · rfl
        · exact absurd hx h
      have hcv : classValues rest = [] := by
        by_contra hc
        exact h ((any_isClassNode_iff rest).mpr hc)
      cases n with
      | cls v =>
        rcases hrw : rw v with ⟨v2, p⟩
        cases p with
        | some pp => simp [updateLastInCompound, hb, hrw, classValues, hcv, mapLast]
        | none => simp [updateLastInCompound, hb, hrw, classValues, hcv, mapLast]
      | pseudo v => simp [updateLastInCompound, hb, classValues, ih, hcv, mapLast]
      | other v => simp [updateLastInCompound, hb, classValues, ih, hcv, mapLast]

/-- C5: `updateLastClasses` rewrites each compound independently, changes
at most one class node per compound — only the last class value is passed
to the callback, earlier class values are preserved verbatim — and
returns every compound containing zero class nodes completely
unchanged. -/
theorem updateLastClasses_spec (rw : String → String × Option String)
    (sel : List (List SimpleNode)) (i : Nat) (comp : List SimpleNode)
    (h : sel[i]? = some comp) :
    (updateLastClasses rw sel)[i]? = some (updateLastInCompound rw comp) ∧
    (comp.any isClassNode = false → updateLastInCompound rw comp = comp) ∧
    classValues (updateLastInCompound rw comp)
      = mapLast (fun v => (rw v).1) (classValues comp) := by
  refine ⟨?_, fun hnc => updateLastInCompound_no_class rw comp hnc,
    classValues_updateLastInCompound rw comp⟩
  unfold updateLastClasses
  rw [List.getElem?_map, h]
  rfl

/-- Witness for `updateLastClasses_spec` at a concrete two-class
compound. -/
theorem updateLastClasses_spec_witness :
    [c5Compound][0]? = some c5Compound ∧
    ((updateLastClasses c5Callback [c5Compound])[0]?
        = some (updateLastInCompound c5Callback c5Compound) ∧
      (c5Compound.any isClassNode = false →
        updateLastInCompound c5Callback c5Compound = c5Compound) ∧
      classValues (updateLastInCompound c5Callback c5Compound)
        = mapLast (fun v => (c5Callback v).1) (classValues c5Compound)) :=
  ⟨rfl, updateLastClasses_spec c5Callback [c5Compound] 0 c5Compound rfl⟩

/-- `transformNodes` is `transformNode` mapped over the siblings. -/
theorem transformNodes_eq_map (tf : String → String) (kf : String → Bool)
    (wr : CssRule → CssRule) : (cs : List CssNode) →
    transformNodes tf kf wr cs = cs.map (transformNode tf kf wr)
  | [] => rfl
  | c :: cs => by
      rw [transformNodes, transformNodes_eq_map tf kf wr cs, List.map_cons]

mutual

/-- The rules inside one transformed node are the original rules with the
keyframe-or-rewrite rule transform mapped over them. -/
theorem rulesInNode_transform (tf : String → String) (kf : String → Bool)
    (wr : CssRule → CssRule) : (c : CssNode) →
    rulesInNode (transformNode tf kf wr c)
      = (rulesInNode c).map
          (fun r => if kf r.selector then r else applyRuleTransform tf wr r)
  | CssNode.rule r => by
      by_cases h : kf r.selector
      · simp [transformNode, h, rulesInNode]
      · simp [transformNode, h, rulesInNode]
  | CssNode.atRule n p cs => by
      simpa [transformNode, rulesInNode] using rulesInNodes_transform tf kf wr cs

/-- Sibling-list version of `rulesInNode_transform`. -/
theorem rulesInNodes_transform (tf : String → String) (kf : String → Bool)
    (wr : CssRule → CssRule) : (cs : List CssNode) →
    rulesInNodes (transformNodes tf kf wr cs)
      = (rulesInNodes cs).map
          (fun r => if kf r.selector then r else applyRuleTransform tf wr r)
  | [] => rfl
  | c :: cs => by
      simp [transformNodes, rulesInNodes, rulesInNode_transform tf kf wr c,
        rulesInNodes_transform tf kf wr cs]

end

/-- C7: after `transformAllSelectors`, the rules of the tree are exactly
the original rules with the per-rule transform mapped over them: every
rule recognized as a keyframe rule (for an arbitrary keyframe predicate)
is left byte-for-byte unchanged with the `withRule` hook never applied to
it, and every other rule has its selector split on non-escaped commas,
each piece transformed independently, the pieces rejoined with commas,
and the hook applied. -/
theorem transformAllSelectors_rules (tf : String → String) (kf : String → Bool)
    (wrap : Option (String × String)) (wr : CssRule → CssRule)
    (container : List CssNode) :
    rulesInNodes (transformAllSelectors tf kf wrap wr container)
      = (rulesInNodes container).map
          (fun r => if kf r.selector then r
            else wr { r with selector := jsJoin "," ((splitByNotEscapedCommas r.selector).map tf) }) := by
  unfold transformAllSelectors
  cases wrap with
  | none => simpa [applyRuleTransform] using rulesInNodes_transform tf kf wr container
  | some np =>
      simpa [rulesInNodes, rulesInNode, applyRuleTransform] using
        rulesInNodes_transform tf kf wr container

/-- C6: `transformAllSelectors` with a `wrap` option rewrites all rules
first and then moves every (transformed) direct child of the container
into the single newly created at-rule, which becomes the container's only
child. -/
theorem transformAllSelectors_wrap_spec (tf : String → String) (kf : String → Bool)
    (wr : CssRule → CssRule) (container : List CssNode) (n p : String) :
    transformAllSelectors tf kf (some (n, p)) wr container
      = [CssNode.atRule n p (container.map (transformNode tf kf wr))] ∧
    (transformAllSelectors tf kf (some (n, p)) wr container).length = 1 ∧
    ∀ c ∈ container,
      transformNode tf kf wr c ∈
        childrenOf (CssNode.atRule n p (container.map (transformNode tf kf wr))) := by
  refine ⟨?_, ?_, ?_⟩
  · unfold transformAllSelectors
    simp [transformNodes_eq_map]
  · unfold transformAllSelectors
    simp
  · intro c hc
    simpa [childrenOf] using List.mem_map_of_mem (transformNode tf kf wr) hc

/-- Witness for `transformAllSelectors_wrap_spec`: a media wrap applied to
a container holding one top-level rule and one at-rule with a nested
rule. -/
theorem transformAllSelectors_wrap_spec_witness :
    transformAllSelectors (fun s => "." ++ "dark " ++ s) (fun _ => false) (some ("media", "(min-width: 640px)")) id c6Container
      = [CssNode.atRule "media" "(min-width: 640px)"
          (c6Container.map (transformNode (fun s => "." ++ "dark " ++ s) (fun _ => false) id))] ∧
    (transformAllSelectors (fun s => "." ++ "dark " ++ s) (fun _ => false) (some ("media", "(min-width: 640px)")) id c6Container).length = 1 ∧
    ∀ c ∈ c6Container,
      transformNode (fun s => "." ++ "dark " ++ s) (fun _ => false) id c ∈
        childrenOf (CssNode.atRule "media" "(min-width: 640px)"
          (c6Container.map (transformNode (fun s => "." ++ "dark " ++ s) (fun _ => false) id))) :=
  transformAllSelectors_wrap_spec (fun s => "." ++ "dark " ++ s) (fun _ => false) id
    c6Container "media" "(min-width: 640px)"

/-- The char list of a synthesized bracket literal. -/
theorem toList_bracket (rest : String) :
    ("[" ++ rest ++ "]").toList = '[' :: (rest.toList ++ [']']) := by
  show ("[" ++ rest ++ "]").data = _
  rw [String.data_append, String.data_append]
  rfl

/-- Unwrapping a synthesized bracket literal recovers its content. -/
theorem jsSlice_bracket (rest : String) :
    jsSlice ("[" ++ rest ++ "]") 1 (-1) = rest := by
  unfold jsSlice
  rw [toList_bracket]
  have hlen : ('[' :: (rest.toList ++ [']'])).length = rest.toList.length + 2 := by
    simp
  rw [hlen]
  have h1 : jsSliceIdx (rest.toList.length + 2) 1 = 1 := by
    unfold jsSliceIdx
    norm_num
  have h2 : jsSliceIdx (rest.toList.length + 2) (-1) = rest.toList.length + 1 := by
    unfold jsSliceIdx
    norm_num
    omega
  rw [h1, h2]
  simp only [List.drop_succ_cons, List.drop_zero, Nat.add_sub_cancel]
  rw [List.take_left]
  rfl

/-- A synthesized bracket literal is an arbitrary value. -/
theorem isArbitraryValue_bracket (rest : String) :
    isArbitraryValue ("[" ++ rest ++ "]") = true := by
  unfold isArbitraryValue jsStartsWith jsEndsWith
  rw [toList_bracket]
  refine (Bool.and_eq_true _ _).mpr ⟨?_, ?_⟩
  · simp [List.isPrefixOf]
  · simp
    exact ⟨'[' :: rest.toList, by simp⟩

/-- C3: the claim that the matched-kind label of a theme-table hit is
`lookup` is false: `coerceValue(['color'], 'red-500', ...)` on a table
mapping `red-500` to `#ef4444` returns the value paired with `color`, the
matching kind from the caller's list, not `lookup`. -/
theorem coerceValue_lookup_label_counterexample :
    coerceValue extDefault ["color"] "red-500" tableRed cfgEmpty
      = some (some "#ef4444", "color") ∧
    coerceValue extDefault ["color"] "red-500" tableRed cfgEmpty
      ≠ some (some "#ef4444", "lookup") :=
  ⟨by decide, by decide⟩

/-- C3 (amended): for every modifier that is a key of the theme table
(and is not bracket-wrapped), `coerceValue` with kind list `["color"]`
returns the table's value verbatim — no validator is ever invoked on it,
which is why the result holds for every external-kind record `Ext` — but
the matched-kind label is `"color"`, the matching kind of the caller's
list, not `"lookup"` (that label arises only when the caller lists the
`lookup` kind). JS truthiness requires the theme value to be nonempty. -/
theorem coerceValue_theme_lookup (ext : Ext) (values : String → Option String)
    (cfg : TailwindConfig) (modifier v : String)
    (h1 : isArbitraryValue modifier = false)
    (h2 : values modifier = some v) (h3 : v ≠ "") :
    coerceValue ext ["color"] modifier values cfg = some (some v, "color") := by
  simp [coerceValue, h1, coerceValueLoop, typeMap, asColor, h2, h3]

/-- Witness for `coerceValue_theme_lookup` at the spec's own example
inputs. -/
theorem coerceValue_theme_lookup_witness :
    coerceValue extDefault ["color"] "red-500" tableRed cfgEmpty
      = some (some "#ef4444", "color") :=
  coerceValue_theme_lookup extDefault tableRed cfgEmpty "red-500" "#ef4444"
    (by decide) (by decide) (by decide)

/-- C8: for a bracketed modifier carrying an explicit kind prefix (the
hypotheses pin down the bracket unwrapping and the split at the first
colon), an unsupported kind name makes resolution fail entirely — the
empty result, with no fallback to the caller's kind list — while a
supported kind name with a nonempty remainder yields the remainder
normalized as a raw literal (the validator slot degenerates to
always-true, so no re-validation happens) paired with that explicit kind;
the theme-table hypothesis records that the synthesized bracket literal
is not itself a theme key. -/
theorem coerceValue_explicit_type (ext : Ext) (types : List String)
    (values : String → Option String) (cfg : TailwindConfig)
    (modifier t rest : String)
    (h1 : isArbitraryValue modifier = true)
    (h2 : splitAtFirst (jsSlice modifier 1 (-1)) ":" = (some t, rest)) :
    (supportedTypes.contains t = false →
      coerceValue ext types modifier values cfg = none) ∧
    (supportedTypes.contains t = true → 0 < rest.length →
      values ("[" ++ rest ++ "]") = none →
      coerceValue ext types modifier values cfg
        = some (some (ext.normalize rest), t)) := by
  constructor
  · intro hc
    have hc2 : t ∉ supportedTypes := by simpa using hc
    simp [coerceValue, h1, h2, hc2]
  · intro hc hr hv
    have hc2 : t ∈ supportedTypes := by simpa using hc
    simp [coerceValue, h1, h2, hc2, hr, asValue, hv, isArbitraryValue_bracket,
      jsSlice_bracket]

/-- Witness for `coerceValue_explicit_type`: the unsupported prefix
`foo` fails entirely while the supported prefix `length` resolves to the
normalized remainder labelled `length`. -/
theorem coerceValue_explicit_type_witness :
    coerceValue extDefault ["color"] "[foo:3px]" (fun _ => none) cfgEmpty = none ∧
    coerceValue extDefault ["color"] "[length:3px]" (fun _ => none) cfgEmpty
      = some (some (extDefault.normalize "3px"), "length") :=
  ⟨(coerceValue_explicit_type extDefault ["color"] (fun _ => none) cfgEmpty
      "[foo:3px]" "foo" "3px" (by decide) (by decide)).1 (by decide),
   (coerceValue_explicit_type extDefault ["color"] (fun _ => none) cfgEmpty
      "[length:3px]" "length" "3px" (by decide) (by decide)).2
      (by decide) (by decide) (by decide)⟩

/-- C9: when the modifier is not itself a theme key, the part before the
last slash is one, and the alpha suffix is not a bracketed arbitrary
value, `asColor` returns the empty result (no rule emitted, never a
silent fallback to the opaque base color) whenever the alpha is not a key
of the theme opacity scale, and composes the base color with the scale's
value through `withAlphaValue` when it is. -/
theorem asColor_alpha_spec (ext : Ext) (lookup : String → Option String)
    (cfg : TailwindConfig) (modifier base alpha c : String)
    (h0 : lookup modifier = none)
    (h1 : splitAlpha modifier = (base, some alpha))
    (h2 : lookup base = some c)
    (h3 : isArbitraryValue alpha = false) :
    (cfg.opacity alpha = none → asColor ext modifier lookup cfg = none) ∧
    (∀ o, cfg.opacity alpha = some o →
      asColor ext modifier lookup cfg = ext.withAlphaValue c o) := by
  constructor
  · intro ho
    simp [asColor, h0, h1, h2, h3, ho]
  · intro o ho
    simp [asColor, h0, h1, h2, h3, ho]

/-- Witness for `asColor_alpha_spec`: `red-500/17` fails against an
opacity scale holding only `50`, while `red-500/50` composes with the
scale value `0.5`. -/
theorem asColor_alpha_spec_witness :
    asColor extDefault "red-500/17" tableRed cfgOpacity = none ∧
    asColor extDefault "red-500/50" tableRed cfgOpacity
      = extDefault.withAlphaValue "#ef4444" "0.5" :=
  ⟨(asColor_alpha_spec extDefault tableRed cfgOpacity "red-500/17" "red-500" "17"
      "#ef4444" (by decide) (by decide) (by decide) (by decide)).1 (by decide),
   (asColor_alpha_spec extDefault tableRed cfgOpacity "red-500/50" "red-500" "50"
      "#ef4444" (by decide) (by decide) (by decide) (by decide)).2 "0.5" (by decide)⟩

/-- C10: splitting a selector on non-escaped commas is lossless — joining
the chunks back with a comma reproduces the input exactly, and the empty
input yields a single empty chunk. -/
theorem splitByNotEscapedCommas_lossless :
    (∀ s : String, jsJoin "," (splitByNotEscapedCommas s) = s) ∧
    splitByNotEscapedCommas "" = [""] := by
  constructor
  · intro s
    unfold splitByNotEscapedCommas
    rw [jsJoin_map_mk, splitCommasAux_join]
    rfl
  · rfl

end Tailwind
